import Mathlib

/-!
Verification of the search logic of the jmdict-SQLite dictionary service.

The service (src/index2.js, and an earlier unranked revision in
src/unnamed/part_000) classifies a query string by script, then runs a
SQL query against a fixed SQLite database: a primary substring pass
(`field LIKE '%q%'`) and, when that returns no rows, one full-text
fallback pass (`field_fts MATCH 'q*'`).  Every SQL query groups by entry
id, aggregates each field with `GROUP_CONCAT(DISTINCT ...)`, orders by a
computed `match_type` plus a length tie-break, and takes `LIMIT 50`.

This file embeds that logic shallowly:
  * the database is a `Store`: the three field tables as association
    lists, plus the full-text index, which is built outside this
    repository and is therefore modelled as an abstract match relation
    per field (`String → String → Bool`, pattern then value);
  * SQLite's `LIKE` (ASCII-case-insensitive, `%`/`_` wildcards) is
    implemented as `likeMatch`;
  * SQLite's `MIN(text)` under the default BINARY collation (memcmp of
    UTF-8, i.e. code-point lexicographic order) is `minString`;
  * SQLite's `LENGTH(text)` (count of characters) is `String.length`;
  * bare columns in the mixed-category `ORDER BY` (an aggregate query
    reads them from an arbitrary row of the group) are modelled by a
    store-supplied row choice `rowPick`;
  * `ORDER BY` is a sort by the embedded key; ties are resolved by an
    arbitrary-but-fixed order (insertion sort over the table order),
    mirroring SQLite's unspecified tie order.
-/

namespace Jmdict

/-- ASCII-only case folding: SQLite's default `LIKE` compares the 26 ASCII
letters case-insensitively and every other character exactly. -/
def asciiFold (c : Char) : Char :=
  if 'A' ≤ c && c ≤ 'Z' then Char.ofNat (c.toNat + 32) else c

/-- Try a predicate on every suffix of a character list (used for the `%`
wildcard, which may consume any number of characters). -/
def likeTails (f : List Char → Bool) : List Char → Bool
  | [] => f []
  | l@(_ :: ts) => f l || likeTails f ts

/-- SQLite `LIKE` pattern matching: `%` matches any sequence, `_` any one
character, and ordinary characters match up to ASCII case folding. -/
def likeMatch : List Char → List Char → Bool
  | [], t => t.isEmpty
  | c :: ps, t =>
    if c = '%' then likeTails (fun u => likeMatch ps u) t
    else if c = '_' then
      match t with
      | [] => false
      | _ :: ts => likeMatch ps ts
    else
      match t with
      | [] => false
      | x :: ts => (asciiFold c == asciiFold x) && likeMatch ps ts

/-- `v LIKE '%' || q || '%'`: the containment pattern every primary pass
and every `CASE ... WHEN ... LIKE ?` of the service builds from the raw
query. -/
def likeContains (q v : String) : Bool :=
  likeMatch ('%' :: (q.data ++ ['%'])) v.data

/-- Code-point lexicographic order on character lists; this coincides with
SQLite's BINARY collation (bytewise memcmp of UTF-8). -/
def charListLt : List Char → List Char → Bool
  | [], [] => false
  | [], _ :: _ => true
  | _ :: _, [] => false
  | a :: as, b :: bs => a < b || (a == b && charListLt as bs)

/-- SQL `MIN(column)` over the non-NULL values of a group (NULL when the
group has no values). -/
def minString : List String → Option String
  | [] => none
  | v :: vs => some (vs.foldl (fun a b => if charListLt b.data a.data then b else a) v)

/-- The `LENGTH(MIN(column))` sort key, encoded into `Nat` so that SQL
NULL (no values) orders first, as in an ascending `ORDER BY`:
NULL becomes `0` and a string of length `n` becomes `n + 1`. -/
def lenKey (l : List String) : Nat :=
  match minString l with
  | none => 0
  | some v => v.length + 1

/-- The four script categories of `detectQueryType`. -/
inductive QueryType where
  | kanji
  | kana
  | english
  | all
deriving DecidableEq

/-- Characters matched by the kanji regex `[一-龯]`, i.e. U+4E00..U+9FAF. -/
def isKanjiChar (c : Char) : Bool :=
  0x4E00 ≤ c.toNat && c.toNat ≤ 0x9FAF

/-- Characters matched inside `^[぀-ヿー]+$` (the kana test). -/
def isKanaChar (c : Char) : Bool :=
  (0x3040 ≤ c.toNat && c.toNat ≤ 0x30FF) || c.toNat == 0x30FC

/-- JavaScript's `\s` character class. -/
def isJsSpace (c : Char) : Bool :=
  c == ' ' || c == '\t' || c == '\n' || c.toNat == 0x0B || c.toNat == 0x0C ||
  c == '\r' || c.toNat == 0xA0 || c.toNat == 0x1680 ||
  (0x2000 ≤ c.toNat && c.toNat ≤ 0x200A) || c.toNat == 0x2028 ||
  c.toNat == 0x2029 || c.toNat == 0x202F || c.toNat == 0x205F ||
  c.toNat == 0x3000 || c.toNat == 0xFEFF

/-- Characters matched inside `^[a-zA-Z\s]+$` (the English test). -/
def isEnglishChar (c : Char) : Bool :=
  ('a' ≤ c && c ≤ 'z') || ('A' ≤ c && c ≤ 'Z') || isJsSpace c

/-- `detectQueryType` of src/index2.js lines 16-31: any kanji character
wins, else an all-kana string, else an all-Latin/space string, else the
mixed fallback `all`. -/
def detectQueryType (q : String) : QueryType :=
  if q.data.any isKanjiChar then .kanji
  else if !q.data.isEmpty && q.data.all isKanaChar then .kana
  else if !q.data.isEmpty && q.data.all isEnglishChar then .english
  else .all

/-- The read-only data store: the `entries` table (ids), the three field
tables as (entry_id, value) rows, the three full-text indexes as abstract
match relations (pattern, value) — the index contents are built outside
this repository — and `rowPick`, the arbitrary group-row choice SQLite
makes when a bare column appears in an aggregate query. -/
structure Store where
  entries : List Nat
  kanjiRows : List (Nat × String)
  readingRows : List (Nat × String)
  meaningRows : List (Nat × String)
  kanjiFtsMatch : String → String → Bool
  readingsFtsMatch : String → String → Bool
  meaningsFtsMatch : String → String → Bool
  rowPick : Nat → Nat

/-- Field values of one entry, in table order. -/
def valsOf (rows : List (Nat × String)) (e : Nat) : List String :=
  (rows.filter (fun p => p.1 == e)).map Prod.snd

def kanjiVals (s : Store) (e : Nat) : List String := valsOf s.kanjiRows e

def readingVals (s : Store) (e : Nat) : List String := valsOf s.readingRows e

def meaningVals (s : Store) (e : Nat) : List String := valsOf s.meaningRows e

/-- One joined row: (k.kanji, r.reading, m.meaning), each NULL-able. -/
abbrev SqlRow := Option String × Option String × Option String

/-- A `LEFT JOIN` contributes one NULL row when the joined table has no
match, otherwise its values. -/
def padded : List String → List (Option String)
  | [] => [none]
  | l => l.map some

/-- The rows of the group of entry `e` produced by
`entries LEFT JOIN kanji LEFT JOIN readings LEFT JOIN meanings`:
the cross product of the padded per-field value lists. -/
def groupRows (s : Store) (e : Nat) : List SqlRow :=
  (padded (kanjiVals s e)).flatMap fun k =>
    (padded (readingVals s e)).flatMap fun r =>
      (padded (meaningVals s e)).map fun m => (k, r, m)

/-- `CASE WHEN eq THEN 1 WHEN like THEN 2 ELSE 3 END`. -/
def caseRank (eqHit likeHit : Bool) : Nat :=
  if eqHit then 1 else if likeHit then 2 else 3

/-- SQL `column = ?` on a NULL-able column: NULL compares to nothing. -/
def optEq (q : String) : Option String → Bool
  | none => false
  | some v => v == q

/-- SQL `column LIKE '%' || ? || '%'` on a NULL-able column. -/
def optLike (q : String) : Option String → Bool
  | none => false
  | some v => likeContains q v

/-- `MIN(CASE WHEN col = ? THEN 1 WHEN col LIKE ? THEN 2 ELSE 3 END)` over
the group rows, for the single field selected by `π`. -/
def matchTypeProj (s : Store) (q : String) (π : SqlRow → Option String) (e : Nat) : Nat :=
  (((groupRows s e).map fun row => caseRank (optEq q (π row)) (optLike q (π row))).foldr Nat.min 3)

def matchTypeK (s : Store) (q : String) (e : Nat) : Nat :=
  matchTypeProj s q (fun row => row.1) e

def matchTypeR (s : Store) (q : String) (e : Nat) : Nat :=
  matchTypeProj s q (fun row => row.2.1) e

def matchTypeM (s : Store) (q : String) (e : Nat) : Nat :=
  matchTypeProj s q (fun row => row.2.2) e

/-- The mixed-category `match_type`: the three fields are OR-ed inside one
`CASE`. -/
def matchTypeAll (s : Store) (q : String) (e : Nat) : Nat :=
  (((groupRows s e).map fun row =>
    caseRank (optEq q row.1 || optEq q row.2.1 || optEq q row.2.2)
      (optLike q row.1 || optLike q row.2.1 || optLike q row.2.2)).foldr Nat.min 3)

/-- The group row an aggregate query's bare columns are read from: SQLite
leaves the choice unspecified, so the store carries it (`rowPick`). -/
def bareRow (s : Store) (e : Nat) : SqlRow :=
  let rows := groupRows s e
  rows.getD (s.rowPick e % rows.length) (none, none, none)

/-- The mixed-category `ORDER BY` tie-break:
`CASE WHEN k.kanji LIKE ? THEN LENGTH(MIN(k.kanji)) WHEN r.reading LIKE ?
THEN LENGTH(MIN(r.reading)) ELSE LENGTH(MIN(m.meaning)) END`, where
`k.kanji` and `r.reading` are bare columns of the picked row. -/
def mixedKey2 (s : Store) (q : String) (e : Nat) : Nat :=
  if optLike q (bareRow s e).1 then lenKey (kanjiVals s e)
  else if optLike q (bareRow s e).2.1 then lenKey (readingVals s e)
  else lenKey (meaningVals s e)

def keyK (s : Store) (q : String) (e : Nat) : Nat × Nat :=
  (matchTypeK s q e, lenKey (kanjiVals s e))

def keyR (s : Store) (q : String) (e : Nat) : Nat × Nat :=
  (matchTypeR s q e, lenKey (readingVals s e))

def keyM (s : Store) (q : String) (e : Nat) : Nat × Nat :=
  (matchTypeM s q e, lenKey (meaningVals s e))

def keyAll (s : Store) (q : String) (e : Nat) : Nat × Nat :=
  (matchTypeAll s q e, mixedKey2 s q e)

/-- `WHERE e.id IN (SELECT entry_id FROM <field> WHERE <field> LIKE '%q%')`,
filtered over the entries table in table order (the grouped output). -/
def likeCandidates (s : Store) (rows : List (Nat × String)) (q : String) : List Nat :=
  s.entries.filter fun e => rows.any fun p => p.1 == e && likeContains q p.2

/-- `WHERE e.id IN (SELECT entry_id FROM <field> WHERE rowid IN
(SELECT rowid FROM <field>_fts WHERE <field>_fts MATCH pat))`. -/
def ftsCandidates (s : Store) (rows : List (Nat × String))
    (ftsm : String → String → Bool) (pat : String) : List Nat :=
  s.entries.filter fun e => rows.any fun p => p.1 == e && ftsm pat p.2

/-- The mixed-category `WHERE`: union of the three per-field LIKE
subqueries. -/
def mixedLikeCandidates (s : Store) (q : String) : List Nat :=
  s.entries.filter fun e =>
    (s.kanjiRows.any fun p => p.1 == e && likeContains q p.2) ||
    (s.readingRows.any fun p => p.1 == e && likeContains q p.2) ||
    (s.meaningRows.any fun p => p.1 == e && likeContains q p.2)

/-- The mixed-category fallback `WHERE`: union of the three per-field FTS
subqueries. -/
def mixedFtsCandidates (s : Store) (pat : String) : List Nat :=
  s.entries.filter fun e =>
    (s.kanjiRows.any fun p => p.1 == e && s.kanjiFtsMatch pat p.2) ||
    (s.readingRows.any fun p => p.1 == e && s.readingsFtsMatch pat p.2) ||
    (s.meaningRows.any fun p => p.1 == e && s.meaningsFtsMatch pat p.2)

/-- One row of a ranked SELECT of src/index2.js: entry id, the three
`GROUP_CONCAT(DISTINCT ...)` aggregates, and the computed `match_type`. -/
structure RankedResult where
  id : Nat
  kanji : Option String
  readings : Option String
  meanings : Option String
  match_type : Nat
deriving DecidableEq

/-- One object as sent to the caller (src/index2.js lines 299-303 strip
`match_type`; src/unnamed/part_000 never selects it). -/
structure SearchResult where
  id : Nat
  kanji : Option String
  readings : Option String
  meanings : Option String
deriving DecidableEq

/-- First-occurrence deduplication, as `DISTINCT` inside an aggregate. -/
def dedupFirst (l : List String) : List String :=
  l.foldl (fun acc v => if acc.contains v then acc else acc ++ [v]) []

/-- `GROUP_CONCAT(DISTINCT column)`: NULL for an empty group, otherwise
the distinct values joined by commas. -/
def groupConcat (l : List String) : Option String :=
  match dedupFirst l with
  | [] => none
  | vs => some (String.intercalate "," vs)

def mkRanked (s : Store) (mt : Nat) (e : Nat) : RankedResult :=
  ⟨e, groupConcat (kanjiVals s e), groupConcat (readingVals s e),
    groupConcat (meaningVals s e), mt⟩

def mkResult (s : Store) (e : Nat) : SearchResult :=
  ⟨e, groupConcat (kanjiVals s e), groupConcat (readingVals s e),
    groupConcat (meaningVals s e)⟩

def stripRank (r : RankedResult) : SearchResult :=
  ⟨r.id, r.kanji, r.readings, r.meanings⟩

/-- Ascending lexicographic comparison of `(match_type, length-key)`. -/
def keyLe (x y : Nat × Nat) : Bool :=
  Nat.blt x.1 y.1 || (x.1 == y.1 && Nat.ble x.2 y.2)

/-- The shared tail of every ranked SELECT: build one row per candidate
entry, `ORDER BY` the key, `LIMIT 50`. -/
def rankSortLimit (s : Store) (key : Nat → Nat × Nat) (mt : Nat → Nat)
    (cands : List Nat) : List RankedResult :=
  ((List.insertionSort (fun a b => keyLe (key a) (key b) = true) cands).map
    fun e => mkRanked s (mt e) e).take 50

/-- The candidate entry set of the primary (substring) pass, per category. -/
def primaryCands (s : Store) (q : String) : List Nat :=
  match detectQueryType q with
  | .kanji => likeCandidates s s.kanjiRows q
  | .kana => likeCandidates s s.readingRows q
  | .english => likeCandidates s s.meaningRows q
  | .all => mixedLikeCandidates s q

/-- The candidate entry set of the full-text fallback pass, per category. -/
def ftsCands (s : Store) (pat q : String) : List Nat :=
  match detectQueryType q with
  | .kanji => ftsCandidates s s.kanjiRows s.kanjiFtsMatch pat
  | .kana => ftsCandidates s s.readingRows s.readingsFtsMatch pat
  | .english => ftsCandidates s s.meaningRows s.meaningsFtsMatch pat
  | .all => mixedFtsCandidates s pat

/-- The sort key of the category's SELECT (identical in its primary and
fallback variants, both of which rank against the raw query). -/
def sortKeyOf (s : Store) (q : String) : Nat → Nat × Nat :=
  match detectQueryType q with
  | .kanji => keyK s q
  | .kana => keyR s q
  | .english => keyM s q
  | .all => keyAll s q

/-- The `match_type` of the category's SELECT. -/
def mtOf (s : Store) (q : String) : Nat → Nat :=
  match detectQueryType q with
  | .kanji => matchTypeK s q
  | .kana => matchTypeR s q
  | .english => matchTypeM s q
  | .all => matchTypeAll s q

/-- The primary pass of src/index2.js for the classified category. -/
def primaryPass (s : Store) (q : String) : List RankedResult :=
  rankSortLimit s (sortKeyOf s q) (mtOf s q) (primaryCands s q)

/-- The full-text fallback pass of src/index2.js (`pat` is the MATCH
parameter; ranking still uses the raw query `q`). -/
def ftsPass (s : Store) (pat q : String) : List RankedResult :=
  rankSortLimit s (sortKeyOf s q) (mtOf s q) (ftsCands s pat q)

/-- The two-pass search of src/index2.js: the fallback runs exactly when
the primary pass returns no rows, with the MATCH parameter `q ++ "*"`. -/
def searchRanked (s : Store) (q : String) : List RankedResult :=
  if (primaryPass s q).isEmpty then ftsPass s (q ++ "*") q else primaryPass s q

/-- The result list sent to the caller: `match_type` stripped. -/
def search (s : Store) (q : String) : List SearchResult :=
  (searchRanked s q).map stripRank

/-- The shared tail of every SELECT of src/unnamed/part_000 (the unranked
revision): one row per candidate, no ORDER BY, `LIMIT 50`. -/
def resultsOf (s : Store) (cands : List Nat) : List SearchResult :=
  (cands.map (mkResult s)).take 50

def primaryPassU (s : Store) (q : String) : List SearchResult :=
  resultsOf s (primaryCands s q)

def ftsPassU (s : Store) (pat q : String) : List SearchResult :=
  resultsOf s (ftsCands s pat q)

/-- The two-pass search of src/unnamed/part_000 (identical WHERE clauses
and fallback trigger; no ranking). -/
def searchU (s : Store) (q : String) : List SearchResult :=
  if (primaryPassU s q).isEmpty then ftsPassU s (q ++ "*") q else primaryPassU s q

/-- HTTP responses the `/search` handler can produce. -/
inductive HttpResponse where
  | badRequest (error : String)
  | okJson (results : List SearchResult)
  | serverError (error : String) (details : String)
deriving DecidableEq

/-- The `/search` handler: the missing/empty-`q` guard runs before any
classification or store access; the try/catch turns any store failure
(`Except.error`) into a 500 with the underlying message; on success the
rows are stripped of `match_type` and sent as JSON. -/
def handleSearch (q : Option String)
    (run : String → Except String (List RankedResult)) : HttpResponse :=
  match q with
  | none => .badRequest "Missing query parameter: q"
  | some qs =>
    if qs.isEmpty then .badRequest "Missing query parameter: q"
    else
      match run qs with
      | .error msg => .serverError "Database search error" msg
      | .ok rs => .okJson (rs.map stripRank)

/-- The non-failing instantiation of the handler's search body over a
concrete store. -/
def runStore (s : Store) (q : String) : Except String (List RankedResult) :=
  .ok (searchRanked s q)

/-- Two stores with the same tables and row choice, possibly different
full-text indexes (used to state that a pass never consults the index). -/
def Store.sameData (s t : Store) : Prop :=
  s.entries = t.entries ∧ s.kanjiRows = t.kanjiRows ∧
  s.readingRows = t.readingRows ∧ s.meaningRows = t.meaningRows ∧
  s.rowPick = t.rowPick

/-! ### Spec-side notions (formalising the claims' own vocabulary) -/

/-- The spec's "contains the raw query as a case-sensitive substring". -/
def csSub (q v : String) : Prop := q.data <:+: v.data

instance (q v : String) : Decidable (csSub q v) := by
  unfold csSub
  infer_instance

/-- Containment up to ASCII case folding: what SQLite's `LIKE '%q%'`
actually tests for a wildcard-free `q`. -/
def asciiSub (q v : String) : Prop :=
  (q.data.map asciiFold) <:+: (v.data.map asciiFold)

instance (q v : String) : Decidable (asciiSub q v) := by
  unfold asciiSub
  infer_instance

/-- A query containing neither `LIKE` wildcard character. -/
def noWildcard (q : String) : Prop := ∀ c ∈ q.data, c ≠ '%' ∧ c ≠ '_'

instance (q : String) : Decidable (noWildcard q) := by
  unfold noWildcard
  infer_instance

/-- Membership of the full CJK Unified Ideographs block U+4E00..U+9FFF
(the spec's "CJK Unified Ideographs range"). -/
def inCJKUnifiedBlock (c : Char) : Bool :=
  0x4E00 ≤ c.toNat && c.toNat ≤ 0x9FFF

/-- The spec's tie-break quantity: the length of the shortest field value
that matches the query (NULL when none matches). -/
def specShortestMatchLen (q : String) (vals : List String) : Option Nat :=
  match (vals.filter (likeContains q)).map String.length with
  | [] => none
  | n :: ns => some (ns.foldl Nat.min n)

def specLenLe : Option Nat → Option Nat → Prop
  | none, _ => True
  | some _, none => False
  | some a, some b => a ≤ b

instance (a b : Option Nat) : Decidable (specLenLe a b) :=
  match a, b with
  | none, _ => isTrue trivial
  | some _, none => isFalse fun h => h
  | some x, some y => inferInstanceAs (Decidable (x ≤ y))

/-- The ordering claim C1 makes of a result list: non-decreasing rank and,
at equal rank, non-decreasing shortest-matching-value length of the
primary field. -/
def claimOrderC1 (q : String) (vals : Nat → List String) (l : List RankedResult) : Prop :=
  l.Pairwise fun a b => a.match_type < b.match_type ∨
    (a.match_type = b.match_type ∧
      specLenLe (specShortestMatchLen q (vals a.id)) (specShortestMatchLen q (vals b.id)))

instance (q : String) (vals : Nat → List String) (l : List RankedResult) :
    Decidable (claimOrderC1 q vals l) := by
  unfold claimOrderC1
  infer_instance

/-! ### Concrete stores used in counterexamples and witnesses -/

/-- An always-empty full-text index. -/
def noFts : String → String → Bool := fun _ _ => false

/-- A store whose entry 2 has a short non-matching meaning next to a long
matching one. -/
def storeC1 : Store :=
  ⟨[1, 2], [], [], [(1, "zzeat"), (2, "a"), (2, "bbbbbbbbbbeat")],
    noFts, noFts, noFts, fun _ => 0⟩

/-- A store in which two entries both carry the exact kanji 食べる. -/
def storeC4 : Store :=
  ⟨[1, 2], [(1, "食べる"), (2, "食べる"), (2, "あ")], [], [],
    noFts, noFts, noFts, fun _ => 0⟩

/-- A store whose only meaning matches "eat" only case-insensitively. -/
def storeC5 : Store :=
  ⟨[1], [], [], [(1, "EAT ME")], noFts, noFts, noFts, fun _ => 0⟩

/-- A store whose full-text kanji index reports a hit on a value that does
not contain the query. -/
def storeC6 : Store :=
  ⟨[1], [(1, "水")], [], [], (fun _ _ => true), noFts, noFts, fun _ => 0⟩

/-- A small ordinary store (one entry, one reading) used by witnesses. -/
def storeA : Store :=
  ⟨[1], [], [(1, "あい")], [], noFts, noFts, noFts, fun _ => 0⟩

/-- `storeA` with a different (everything-matches) full-text index. -/
def storeB : Store :=
  ⟨[1], [], [(1, "あい")], [], (fun _ _ => true), (fun _ _ => true),
    (fun _ _ => true), fun _ => 0⟩

/-! ### Helper lemmas: folds, ranks, group rows -/

theorem foldrMin_le_of_mem {l : List Nat} {a : Nat} (h : a ∈ l) :
    l.foldr Nat.min 3 ≤ a := by
  induction l with
  | nil => cases h
  | cons x xs ih =>
    rw [List.foldr_cons]
    rcases List.mem_cons.mp h with rfl | h2
    · exact Nat.min_le_left _ _
    · exact le_trans (Nat.min_le_right _ _) (ih h2)

theorem le_foldrMin {l : List Nat} {k : Nat} (h3 : k ≤ 3) (h : ∀ a ∈ l, k ≤ a) :
    k ≤ l.foldr Nat.min 3 := by
  induction l with
  | nil => exact h3
  | cons x xs ih =>
    rw [List.foldr_cons]
    exact Nat.le_min.mpr ⟨h x (List.mem_cons_self _ _), ih fun a ha => h a (List.mem_cons_of_mem _ ha)⟩

theorem one_le_caseRank (e l : Bool) : 1 ≤ caseRank e l := by
  cases e <;> cases l <;> decide

theorem caseRank_le_two (e : Bool) : caseRank e true ≤ 2 := by
  cases e <;> decide

theorem caseRank_true_left (l : Bool) : caseRank true l = 1 := rfl

theorem two_le_caseRank (l : Bool) : 2 ≤ caseRank false l := by
  cases l <;> decide

theorem padded_ne_nil (l : List String) : padded l ≠ [] := by
  cases l <;> simp [padded]

theorem mem_padded_some {v : String} {l : List String} :
    some v ∈ padded l ↔ v ∈ l := by
  cases l with
  | nil => simp [padded]
  | cons x xs => simp [padded]

theorem mem_groupRows {s : Store} {e : Nat} {a b c : Option String}
    (ha : a ∈ padded (kanjiVals s e)) (hb : b ∈ padded (readingVals s e))
    (hc : c ∈ padded (meaningVals s e)) : (a, b, c) ∈ groupRows s e := by
  unfold groupRows
  rw [List.mem_flatMap]
  exact ⟨a, ha, by rw [List.mem_flatMap]; exact ⟨b, hb, List.mem_map_of_mem _ hc⟩⟩

theorem groupRows_mem_destruct {s : Store} {e : Nat} {row : SqlRow}
    (h : row ∈ groupRows s e) :
    row.1 ∈ padded (kanjiVals s e) ∧ row.2.1 ∈ padded (readingVals s e) ∧
      row.2.2 ∈ padded (meaningVals s e) := by
  unfold groupRows at h
  rw [List.mem_flatMap] at h
  obtain ⟨a, ha, h⟩ := h
  rw [List.mem_flatMap] at h
  obtain ⟨b, hb, h⟩ := h
  rw [List.mem_map] at h
  obtain ⟨c, hc, rfl⟩ := h
  exact ⟨ha, hb, hc⟩

theorem mem_valsOf {rows : List (Nat × String)} {e : Nat} {v : String} :
    v ∈ valsOf rows e ↔ ∃ p ∈ rows, p.1 = e ∧ p.2 = v := by
  unfold valsOf
  rw [List.mem_map]
  constructor
  · rintro ⟨p, hp, rfl⟩
    rw [List.mem_filter] at hp
    exact ⟨p, hp.1, by simpa using hp.2, rfl⟩
  · rintro ⟨p, hp, he, rfl⟩
    exact ⟨p, List.mem_filter.mpr ⟨hp, by simpa using he⟩, rfl⟩

/-! ### Match-type bounds -/

theorem one_le_matchTypeProj (s : Store) (q : String) (π : SqlRow → Option String) (e : Nat) :
    1 ≤ matchTypeProj s q π e := by
  refine le_foldrMin (by omega) ?_
  intro a ha
  rw [List.mem_map] at ha
  obtain ⟨row, _, rfl⟩ := ha
  exact one_le_caseRank _ _

theorem matchTypeProj_le_two (s : Store) (q : String) (π : SqlRow → Option String)
    (e : Nat) (row : SqlRow) (hrow : row ∈ groupRows s e)
    (hlike : optLike q (π row) = true) : matchTypeProj s q π e ≤ 2 := by
  have h1 : caseRank (optEq q (π row)) (optLike q (π row)) ≤ 2 := by
    rw [hlike]; exact caseRank_le_two _
  exact le_trans (foldrMin_le_of_mem (List.mem_map_of_mem _ hrow)) h1

theorem matchTypeProj_eq_one (s : Store) (q : String) (π : SqlRow → Option String)
    (e : Nat) (row : SqlRow) (hrow : row ∈ groupRows s e)
    (heq : optEq q (π row) = true) : matchTypeProj s q π e = 1 := by
  refine le_antisymm ?_ (one_le_matchTypeProj s q π e)
  have h1 : caseRank (optEq q (π row)) (optLike q (π row)) = 1 := by
    rw [heq]; exact caseRank_true_left _
  exact le_trans (foldrMin_le_of_mem (List.mem_map_of_mem _ hrow)) (le_of_eq h1)

theorem two_le_matchTypeProj (s : Store) (q : String) (π : SqlRow → Option String)
    (e : Nat) (hno : ∀ row ∈ groupRows s e, optEq q (π row) = false) :
    2 ≤ matchTypeProj s q π e := by
  refine le_foldrMin (by omega) ?_
  intro a ha
  rw [List.mem_map] at ha
  obtain ⟨row, hrow, rfl⟩ := ha
  rw [hno row hrow]
  exact two_le_caseRank _

/-! ### The sort key comparison -/

theorem keyLe_iff (x y : Nat × Nat) :
    keyLe x y = true ↔ (x.1 < y.1 ∨ (x.1 = y.1 ∧ x.2 ≤ y.2)) := by
  unfold keyLe
  simp [Nat.blt_eq, Nat.ble_eq]

theorem keyLe_total (x y : Nat × Nat) : keyLe x y = true ∨ keyLe y x = true := by
  rw [keyLe_iff, keyLe_iff]; omega

theorem keyLe_trans {x y z : Nat × Nat} (h1 : keyLe x y = true) (h2 : keyLe y z = true) :
    keyLe x z = true := by
  rw [keyLe_iff] at h1 h2 ⊢; omega

theorem keyLe_fst {x y : Nat × Nat} (h : keyLe x y = true) : x.1 ≤ y.1 := by
  rw [keyLe_iff] at h; omega

/-! ### Properties of the shared SELECT tail `rankSortLimit` -/

theorem mem_rankSortLimit {s : Store} {key : Nat → Nat × Nat} {mt : Nat → Nat}
    {cands : List Nat} {r : RankedResult} (h : r ∈ rankSortLimit s key mt cands) :
    ∃ e ∈ cands, r = mkRanked s (mt e) e := by
  unfold rankSortLimit at h
  have h2 := (List.take_sublist _ _).mem h
  rw [List.mem_map] at h2
  obtain ⟨e, he, rfl⟩ := h2
  exact ⟨e, (List.perm_insertionSort _ _).mem_iff.mp he, rfl⟩

theorem rankSortLimit_length (s : Store) (key : Nat → Nat × Nat) (mt : Nat → Nat)
    (cands : List Nat) : (rankSortLimit s key mt cands).length ≤ 50 := by
  unfold rankSortLimit
  rw [List.length_take]
  exact min_le_left _ _

theorem rankSortLimit_pairwise (s : Store) (key : Nat → Nat × Nat) (mt : Nat → Nat)
    (cands : List Nat) :
    (rankSortLimit s key mt cands).Pairwise
      (fun r1 r2 => keyLe (key r1.id) (key r2.id) = true) := by
  haveI : IsTotal Nat (fun a b => keyLe (key a) (key b) = true) :=
    ⟨fun a b => keyLe_total _ _⟩
  haveI : IsTrans Nat (fun a b => keyLe (key a) (key b) = true) :=
    ⟨fun _ _ _ => keyLe_trans⟩
  have hs := List.sorted_insertionSort (fun a b => keyLe (key a) (key b) = true) cands
  refine List.Pairwise.sublist (List.take_sublist _ _) ?_
  exact List.pairwise_map.mpr hs

theorem rankSortLimit_isEmpty (s : Store) (key : Nat → Nat × Nat) (mt : Nat → Nat)
    (cands : List Nat) :
    (rankSortLimit s key mt cands).isEmpty = cands.isEmpty := by
  unfold rankSortLimit
  have hp := List.perm_insertionSort (fun a b => keyLe (key a) (key b) = true) cands
  cases h : List.insertionSort (fun a b => keyLe (key a) (key b) = true) cands with
  | nil =>
    rw [h] at hp
    rw [hp.symm.eq_nil]
    rfl
  | cons a l =>
    rw [h] at hp
    cases cands with
    | nil => exact absurd hp.eq_nil (by simp)
    | cons b m => rfl

theorem rankSortLimit_head {s : Store} {key : Nat → Nat × Nat} {mt : Nat → Nat}
    {cands : List Nat} {e : Nat} (hke : ∀ x, (key x).1 = mt x) (he : e ∈ cands)
    (h1 : mt e = 1) (ho : ∀ x ∈ cands, x ≠ e → 2 ≤ mt x) :
    ∃ rest, rankSortLimit s key mt cands = mkRanked s 1 e :: rest := by
  haveI : IsTotal Nat (fun a b => keyLe (key a) (key b) = true) :=
    ⟨fun a b => keyLe_total _ _⟩
  haveI : IsTrans Nat (fun a b => keyLe (key a) (key b) = true) :=
    ⟨fun _ _ _ => keyLe_trans⟩
  have hp := List.perm_insertionSort (fun a b => keyLe (key a) (key b) = true) cands
  have hs := List.sorted_insertionSort (fun a b => keyLe (key a) (key b) = true) cands
  have hmem : e ∈ List.insertionSort (fun a b => keyLe (key a) (key b) = true) cands :=
    hp.mem_iff.mpr he
  unfold rankSortLimit
  cases hsort : List.insertionSort (fun a b => keyLe (key a) (key b) = true) cands with
  | nil => rw [hsort] at hmem; cases hmem
  | cons h t =>
    rw [hsort] at hp hs hmem
    have hh : h = e := by
      by_contra hne
      have hhc : h ∈ cands := hp.mem_iff.mp (List.mem_cons_self _ _)
      have h2 : 2 ≤ mt h := ho h hhc hne
      have het : e ∈ t := by
        rcases List.mem_cons.mp hmem with rfl | het
        · exact absurd rfl hne
        · exact het
      have hrel : keyLe (key h) (key e) = true :=
        List.rel_of_sorted_cons hs e het
      have := keyLe_fst hrel
      rw [hke, hke, h1] at this
      omega
    subst hh
    exact ⟨(t.map fun x => mkRanked s (mt x) x).take 49, by rw [List.map_cons, h1]; rfl⟩

/-! ### Characterising SQLite LIKE -/

theorem likeTails_eq_true {f : List Char → Bool} {t : List Char} :
    likeTails f t = true ↔ ∃ n, f (t.drop n) = true := by
  induction t with
  | nil =>
    simp only [likeTails, List.drop_nil]
    exact ⟨fun h => ⟨0, h⟩, fun ⟨_, h⟩ => h⟩
  | cons x ts ih =>
    simp only [likeTails, Bool.or_eq_true, ih]
    constructor
    · rintro (h | ⟨n, h⟩)
      · exact ⟨0, h⟩
      · exact ⟨n + 1, by rwa [List.drop_succ_cons]⟩
    · rintro ⟨n, h⟩
      cases n with
      | zero => exact Or.inl h
      | succ m => exact Or.inr ⟨m, by rwa [List.drop_succ_cons] at h⟩

theorem likeMatch_cons (c : Char) (ps t : List Char) :
    likeMatch (c :: ps) t =
      if c = '%' then likeTails (fun u => likeMatch ps u) t
      else if c = '_' then
        match t with
        | [] => false
        | _ :: ts => likeMatch ps ts
      else
        match t with
        | [] => false
        | x :: ts => (asciiFold c == asciiFold x) && likeMatch ps ts := rfl

theorem likeMatch_append_self : ∀ w : List Char, likeMatch (w ++ ['%']) w = true := by
  intro w
  induction w with
  | nil => rfl
  | cons c w ih =>
    show likeMatch (c :: (w ++ ['%'])) (c :: w) = true
    by_cases hc : c = '%'
    · subst hc
      show likeMatch ('%' :: (w ++ ['%'])) ('%' :: w) = true
      rw [likeMatch_cons, if_pos rfl]
      exact likeTails_eq_true.mpr ⟨1, by rw [List.drop_succ_cons, List.drop_zero]; exact ih⟩
    · by_cases hc2 : c = '_'
      · subst hc2
        rw [likeMatch_cons, if_neg hc, if_pos rfl]
        exact ih
      · rw [likeMatch_cons, if_neg hc, if_neg hc2]
        simp only [beq_self_eq_true, Bool.true_and]
        exact ih

theorem likeContains_self (q : String) : likeContains q q = true := by
  unfold likeContains
  rw [likeMatch_cons, if_pos rfl]
  exact likeTails_eq_true.mpr ⟨0, by rw [List.drop_zero]; exact likeMatch_append_self _⟩

theorem likeMatch_pad_iff {w : List Char} (hw : ∀ c ∈ w, c ≠ '%' ∧ c ≠ '_') :
    ∀ t : List Char, (likeMatch (w ++ ['%']) t = true ↔ (w.map asciiFold) <+: (t.map asciiFold)) := by
  induction w with
  | nil =>
    intro t
    constructor
    · intro _; exact List.nil_prefix
    · intro _
      show likeMatch ('%' :: []) t = true
      rw [likeMatch_cons, if_pos rfl]
      exact likeTails_eq_true.mpr ⟨t.length, by rw [List.drop_length]; rfl⟩
  | cons c w ih =>
    intro t
    obtain ⟨hc1, hc2⟩ := hw c (List.mem_cons_self _ _)
    have hw2 : ∀ x ∈ w, x ≠ '%' ∧ x ≠ '_' := fun x hx => hw x (List.mem_cons_of_mem _ hx)
    show likeMatch (c :: (w ++ ['%'])) t = true ↔ _
    rw [likeMatch_cons, if_neg hc1, if_neg hc2]
    cases t with
    | nil =>
      simp only [List.map_cons, List.map_nil]
      constructor
      · intro h; cases h
      · intro h
        have := h.length_le
        simp at this
    | cons x ts =>
      simp only [List.map_cons, List.cons_prefix_cons, Bool.and_eq_true, beq_iff_eq]
      exact and_congr Iff.rfl (ih hw2 ts)

theorem middle_iff_drop {l1 l2 : List Char} :
    l1 <:+: l2 ↔ ∃ n, l1 <+: l2.drop n := by
  constructor
  · rintro ⟨st, u, rfl⟩
    refine ⟨st.length, ?_⟩
    rw [List.append_assoc, List.drop_left]
    exact List.prefix_append _ _
  · rintro ⟨n, r, hr⟩
    exact ⟨l2.take n, r, by rw [List.append_assoc, hr, List.take_append_drop]⟩

theorem likeContains_iff {q v : String} (hq : noWildcard q) :
    likeContains q v = true ↔ asciiSub q v := by
  unfold likeContains asciiSub
  rw [likeMatch_cons, if_pos rfl]
  rw [likeTails_eq_true]
  constructor
  · rintro ⟨n, h⟩
    rw [likeMatch_pad_iff hq] at h
    rw [middle_iff_drop]
    exact ⟨n, by rw [← List.map_drop]; exact h⟩
  · intro h
    rw [middle_iff_drop] at h
    obtain ⟨n, h⟩ := h
    refine ⟨n, ?_⟩
    rw [likeMatch_pad_iff hq, List.map_drop]
    exact h

/-! ### The unranked SELECT tail, and ranked/unranked agreement -/

theorem resultsOf_isEmpty (s : Store) (cands : List Nat) :
    (resultsOf s cands).isEmpty = cands.isEmpty := by
  cases cands <;> rfl

theorem resultsOf_length (s : Store) (cands : List Nat) :
    (resultsOf s cands).length ≤ 50 := by
  unfold resultsOf
  rw [List.length_take]
  exact min_le_left _ _

theorem rankSortLimit_perm_resultsOf (s : Store) (key : Nat → Nat × Nat)
    (mt : Nat → Nat) (cands : List Nat) (h50 : cands.length ≤ 50) :
    ((rankSortLimit s key mt cands).map stripRank).Perm (resultsOf s cands) := by
  unfold rankSortLimit resultsOf
  have hp := List.perm_insertionSort (fun a b => keyLe (key a) (key b) = true) cands
  rw [List.take_of_length_le (by rw [List.length_map, hp.length_eq]; exact h50),
    List.take_of_length_le (by rw [List.length_map]; exact h50), List.map_map]
  exact hp.map (mkResult s)

/-! ### Deduplication inside `GROUP_CONCAT(DISTINCT ...)` -/

theorem dedupFirst_aux (l : List String) : ∀ acc : List String, acc.Nodup →
    (l.foldl (fun acc v => if acc.contains v then acc else acc ++ [v]) acc).Nodup ∧
      ∀ v, v ∈ l.foldl (fun acc v => if acc.contains v then acc else acc ++ [v]) acc ↔
        v ∈ acc ∨ v ∈ l := by
  induction l with
  | nil =>
    intro acc hacc
    exact ⟨hacc, fun v => by simp⟩
  | cons x xs ih =>
    intro acc hacc
    rw [List.foldl_cons]
    by_cases hx : acc.contains x = true
    · rw [if_pos hx]
      obtain ⟨hn, hm⟩ := ih acc hacc
      refine ⟨hn, fun v => ?_⟩
      rw [hm v]
      have hxm : x ∈ acc := by simpa using hx
      constructor
      · rintro (h | h)
        · exact Or.inl h
        · exact Or.inr (List.mem_cons_of_mem _ h)
      · rintro (h | h)
        · exact Or.inl h
        · rcases List.mem_cons.mp h with rfl | h2
          · exact Or.inl hxm
          · exact Or.inr h2
    · rw [if_neg hx]
      have hxn : x ∉ acc := by simpa using hx
      have hacc2 : (acc ++ [x]).Nodup := by
        rw [List.nodup_append]
        exact ⟨hacc, List.nodup_singleton x, by
          intro a ha hb
          rw [List.mem_singleton] at hb
          subst hb
          exact hxn ha⟩
      obtain ⟨hn, hm⟩ := ih (acc ++ [x]) hacc2
      refine ⟨hn, fun v => ?_⟩
      rw [hm v]
      simp only [List.mem_append, List.mem_singleton, List.mem_cons]
      tauto

theorem dedupFirst_nodup (l : List String) : (dedupFirst l).Nodup :=
  (dedupFirst_aux l [] List.nodup_nil).1

theorem mem_dedupFirst (l : List String) (v : String) :
    v ∈ dedupFirst l ↔ v ∈ l := by
  have := (dedupFirst_aux l [] List.nodup_nil).2 v
  unfold dedupFirst
  rw [this]
  simp

/-! ### The primary pass never consults the full-text index -/

theorem primaryPass_congr {s t : Store} (q : String) (h : Store.sameData s t) :
    primaryPass s q = primaryPass t q := by
  obtain ⟨h1, h2, h3, h4, h5⟩ := h
  cases s
  cases t
  dsimp only at h1 h2 h3 h4 h5
  subst h1
  subst h2
  subst h3
  subst h4
  subst h5
  rfl

theorem sortKeyOf_fst (s : Store) (q : String) (e : Nat) :
    (sortKeyOf s q e).1 = mtOf s q e := by
  unfold sortKeyOf mtOf
  cases detectQueryType q <;> rfl

theorem mem_searchRanked {s : Store} {q : String} {r : RankedResult}
    (h : r ∈ searchRanked s q) : ∃ e, r = mkRanked s (mtOf s q e) e := by
  unfold searchRanked primaryPass ftsPass at h
  split at h
  · obtain ⟨e, _, rfl⟩ := mem_rankSortLimit h
    exact ⟨e, rfl⟩
  · obtain ⟨e, _, rfl⟩ := mem_rankSortLimit h
    exact ⟨e, rfl⟩

/-! ### Claim C2: the fallback runs iff the primary pass is empty -/

/-- C2: for every query, the full-text fallback runs exactly when the
primary substring pass returns zero entries: the primary pass reads only
the tables (so an unconsulted full-text index cannot change its result),
a non-empty primary pass is returned as-is, and an empty one is replaced
by the single fallback pass whose MATCH parameter is the raw query with
an appended `*` wildcard. -/
theorem claim_C2 (s t : Store) (q : String) :
    (Store.sameData s t → primaryPass s q = primaryPass t q) ∧
    (primaryPass s q ≠ [] → searchRanked s q = primaryPass s q) ∧
    (primaryPass s q = [] → searchRanked s q = ftsPass s (q ++ "*") q) := by
  refine ⟨primaryPass_congr q, ?_, ?_⟩
  · intro h
    unfold searchRanked
    rw [if_neg (by simpa [List.isEmpty_iff] using h)]
  · intro h
    unfold searchRanked
    rw [if_pos (by simp [List.isEmpty_iff, h])]

/-- C2 witness: on `storeA` (whose primary pass for the kana query あ is
non-empty) the result equals the primary pass, and replacing the
full-text index (`storeB`) leaves the primary pass unchanged. -/
theorem claim_C2_witness :
    primaryPass storeA "あ" = primaryPass storeB "あ" ∧
    searchRanked storeA "あ" = primaryPass storeA "あ" :=
  ⟨(claim_C2 storeA storeB "あ").1 ⟨rfl, rfl, rfl, rfl, rfl⟩,
    (claim_C2 storeA storeB "あ").2.1 (by decide)⟩

/-! ### Claim C3: every result list has at most 50 entries -/

/-- C3: for every store, query, category and pass — primary or full-text
fallback, ranked (src/index2.js) or unranked (src/unnamed/part_000) — the
result list has at most 50 entries (`LIMIT 50`). -/
theorem claim_C3 (s : Store) (q pat : String) :
    (primaryPass s q).length ≤ 50 ∧ (ftsPass s pat q).length ≤ 50 ∧
      (search s q).length ≤ 50 ∧ (searchU s q).length ≤ 50 := by
  refine ⟨rankSortLimit_length _ _ _ _, rankSortLimit_length _ _ _ _, ?_, ?_⟩
  · unfold search searchRanked primaryPass ftsPass
    rw [List.length_map]
    split
    · exact rankSortLimit_length _ _ _ _
    · exact rankSortLimit_length _ _ _ _
  · unfold searchU primaryPassU ftsPassU
    split
    · exact resultsOf_length _ _
    · exact resultsOf_length _ _

/-! ### Claim C8: exposed fields, stripped rank, deduplicated aggregates -/

/-- C8: what the caller receives is exactly the ranked rows with the
internal `match_type` stripped; each exposed row's kanji/readings/meanings
is the `GROUP_CONCAT(DISTINCT ...)` of that entry's field values; and the
deduplication keeps every value exactly once (no duplicates, no losses). -/
theorem claim_C8 (s : Store) (q : String) :
    search s q = (searchRanked s q).map stripRank ∧
    (∀ r ∈ searchRanked s q,
      r.kanji = groupConcat (kanjiVals s r.id) ∧
      r.readings = groupConcat (readingVals s r.id) ∧
      r.meanings = groupConcat (meaningVals s r.id)) ∧
    (∀ l : List String, (dedupFirst l).Nodup ∧ ∀ v, v ∈ dedupFirst l ↔ v ∈ l) := by
  refine ⟨rfl, ?_, fun l => ⟨dedupFirst_nodup l, mem_dedupFirst l⟩⟩
  intro r hr
  obtain ⟨e, rfl⟩ := mem_searchRanked hr
  exact ⟨rfl, rfl, rfl⟩

/-- C8 witness: the field equations instantiated on a concrete row of
`storeA`. -/
theorem claim_C8_witness :
    (mkRanked storeA 2 1).kanji = groupConcat (kanjiVals storeA (mkRanked storeA 2 1).id) ∧
    (mkRanked storeA 2 1).readings = groupConcat (readingVals storeA (mkRanked storeA 2 1).id) ∧
    (mkRanked storeA 2 1).meanings = groupConcat (meaningVals storeA (mkRanked storeA 2 1).id) :=
  (claim_C8 storeA "あ").2.1 (mkRanked storeA 2 1) (by decide)

/-! ### Claim C9: the error boundary of the /search handler -/

/-- C9: a missing or empty `q` yields HTTP 400 with body
"Missing query parameter: q" before any classification or store access
(the response does not depend on the search function at all); a store
failure in either pass yields HTTP 500 with body "Database search error"
plus the underlying message; and a non-failing store yields 200 with the
stripped result list. -/
theorem claim_C9 :
    (∀ run, handleSearch none run = HttpResponse.badRequest "Missing query parameter: q") ∧
    (∀ run, handleSearch (some "") run = HttpResponse.badRequest "Missing query parameter: q") ∧
    (∀ (q : String) (run : String → Except String (List RankedResult)) (msg : String),
      q.isEmpty = false → run q = Except.error msg →
      handleSearch (some q) run = HttpResponse.serverError "Database search error" msg) ∧
    (∀ (s : Store) (q : String), q.isEmpty = false →
      handleSearch (some q) (runStore s) = HttpResponse.okJson (search s q)) := by
  refine ⟨fun _ => rfl, fun _ => rfl, ?_, ?_⟩
  · intro q run msg hq hrun
    unfold handleSearch
    dsimp only
    rw [if_neg (by simp [hq])]
    rw [hrun]
  · intro s q hq
    unfold handleSearch runStore
    dsimp only
    rw [if_neg (by simp [hq])]
    rfl

/-- C9 witness: a failing store call surfaces as the 500 response, and a
healthy store as the 200 response. -/
theorem claim_C9_witness :
    handleSearch (some "eat") (fun _ => Except.error "boom") =
      HttpResponse.serverError "Database search error" "boom" ∧
    handleSearch (some "eat") (runStore storeA) = HttpResponse.okJson (search storeA "eat") :=
  ⟨claim_C9.2.2.1 "eat" (fun _ => Except.error "boom") "boom" rfl rfl,
    claim_C9.2.2.2 storeA "eat" rfl⟩

/-! ### Claim C10: the ranked version refines the unranked one -/

/-- C10: whenever the candidate set of the pass that runs fits in the
50-row limit, src/index2.js and src/unnamed/part_000 return the same
multiset of result rows (same entry ids with the same aggregated
kanji/readings/meanings): the ranked version only reorders them and
computes-then-strips `match_type`, over identical WHERE clauses. -/
theorem claim_C10 (s : Store) (q : String)
    (h1 : (primaryCands s q).length ≤ 50)
    (h2 : (ftsCands s (q ++ "*") q).length ≤ 50) :
    (search s q).Perm (searchU s q) := by
  unfold search searchRanked searchU primaryPass primaryPassU ftsPass ftsPassU
  by_cases hc : (primaryCands s q).isEmpty = true
  · rw [rankSortLimit_isEmpty, if_pos hc, resultsOf_isEmpty, if_pos hc]
    exact rankSortLimit_perm_resultsOf _ _ _ _ h2
  · rw [rankSortLimit_isEmpty, if_neg hc, resultsOf_isEmpty, if_neg hc]
    exact rankSortLimit_perm_resultsOf _ _ _ _ h1

/-- C10 witness: ranked and unranked agree (as multisets) on `storeA`. -/
theorem claim_C10_witness : (search storeA "あ").Perm (searchU storeA "あ") :=
  claim_C10 storeA "あ" (by decide) (by decide)

/-! ### Exact and substring hits drive the per-field match type -/

theorem matchTypeK_eq_one {s : Store} {q : String} {e : Nat}
    (h : q ∈ kanjiVals s e) : matchTypeK s q e = 1 := by
  obtain ⟨b, hb⟩ := List.exists_mem_of_ne_nil _ (padded_ne_nil (readingVals s e))
  obtain ⟨c, hc⟩ := List.exists_mem_of_ne_nil _ (padded_ne_nil (meaningVals s e))
  refine matchTypeProj_eq_one s q _ e (some q, b, c)
    (mem_groupRows (mem_padded_some.mpr h) hb hc) ?_
  simp [optEq]

theorem matchTypeR_eq_one {s : Store} {q : String} {e : Nat}
    (h : q ∈ readingVals s e) : matchTypeR s q e = 1 := by
  obtain ⟨a, ha⟩ := List.exists_mem_of_ne_nil _ (padded_ne_nil (kanjiVals s e))
  obtain ⟨c, hc⟩ := List.exists_mem_of_ne_nil _ (padded_ne_nil (meaningVals s e))
  refine matchTypeProj_eq_one s q _ e (a, some q, c)
    (mem_groupRows ha (mem_padded_some.mpr h) hc) ?_
  simp [optEq]

theorem matchTypeM_eq_one {s : Store} {q : String} {e : Nat}
    (h : q ∈ meaningVals s e) : matchTypeM s q e = 1 := by
  obtain ⟨a, ha⟩ := List.exists_mem_of_ne_nil _ (padded_ne_nil (kanjiVals s e))
  obtain ⟨b, hb⟩ := List.exists_mem_of_ne_nil _ (padded_ne_nil (readingVals s e))
  refine matchTypeProj_eq_one s q _ e (a, b, some q)
    (mem_groupRows ha hb (mem_padded_some.mpr h)) ?_
  simp [optEq]

theorem two_le_matchTypeK {s : Store} {q : String} {e : Nat}
    (h : q ∉ kanjiVals s e) : 2 ≤ matchTypeK s q e := by
  refine two_le_matchTypeProj s q _ e ?_
  intro row hrow
  obtain ⟨h1, _, _⟩ := groupRows_mem_destruct hrow
  cases hr : row.1 with
  | none => rfl
  | some v =>
    rw [hr] at h1
    simp only [optEq, beq_iff_eq]
    by_contra hb
    rw [Bool.not_eq_false, beq_iff_eq] at hb
    subst hb
    exact h (mem_padded_some.mp h1)

theorem two_le_matchTypeR {s : Store} {q : String} {e : Nat}
    (h : q ∉ readingVals s e) : 2 ≤ matchTypeR s q e := by
  refine two_le_matchTypeProj s q _ e ?_
  intro row hrow
  obtain ⟨_, h1, _⟩ := groupRows_mem_destruct hrow
  cases hr : row.2.1 with
  | none => rfl
  | some v =>
    rw [hr] at h1
    simp only [optEq, beq_iff_eq]
    by_contra hb
    rw [Bool.not_eq_false, beq_iff_eq] at hb
    subst hb
    exact h (mem_padded_some.mp h1)

theorem two_le_matchTypeM {s : Store} {q : String} {e : Nat}
    (h : q ∉ meaningVals s e) : 2 ≤ matchTypeM s q e := by
  refine two_le_matchTypeProj s q _ e ?_
  intro row hrow
  obtain ⟨_, _, h1⟩ := groupRows_mem_destruct hrow
  cases hr : row.2.2 with
  | none => rfl
  | some v =>
    rw [hr] at h1
    simp only [optEq, beq_iff_eq]
    by_contra hb
    rw [Bool.not_eq_false, beq_iff_eq] at hb
    subst hb
    exact h (mem_padded_some.mp h1)

theorem mem_likeCandidates_of_exact {s : Store} {rows : List (Nat × String)}
    {q : String} {e : Nat} (he : e ∈ s.entries) (h : q ∈ valsOf rows e) :
    e ∈ likeCandidates s rows q := by
  rw [mem_valsOf] at h
  obtain ⟨p, hp, hpe, hpv⟩ := h
  unfold likeCandidates
  rw [List.mem_filter]
  refine ⟨he, List.any_eq_true.mpr ⟨p, hp, ?_⟩⟩
  rw [Bool.and_eq_true, beq_iff_eq]
  exact ⟨hpe, by rw [hpv]; exact likeContains_self q⟩

theorem mem_likeCandidates_entries {s : Store} {rows : List (Nat × String)}
    {q : String} {e : Nat} (h : e ∈ likeCandidates s rows q) : e ∈ s.entries :=
  (List.mem_filter.mp h).1

theorem searchRanked_head_kanji {s : Store} {q : String} {e : Nat}
    (hdet : detectQueryType q = .kanji) (he : e ∈ s.entries)
    (hq : q ∈ kanjiVals s e)
    (huniq : ∀ x ∈ s.entries, q ∈ kanjiVals s x → x = e) :
    ∃ rest, searchRanked s q = mkRanked s 1 e :: rest := by
  have hcand : e ∈ primaryCands s q := by
    unfold primaryCands
    rw [hdet]
    exact mem_likeCandidates_of_exact he hq
  have hone : mtOf s q e = 1 := by
    unfold mtOf
    rw [hdet]
    exact matchTypeK_eq_one hq
  have hother : ∀ x ∈ primaryCands s q, x ≠ e → 2 ≤ mtOf s q x := by
    intro x hx hne
    unfold mtOf
    rw [hdet]
    unfold primaryCands at hx
    rw [hdet] at hx
    refine two_le_matchTypeK fun hmem => ?_
    exact hne (huniq x (mem_likeCandidates_entries hx) hmem)
  obtain ⟨rest, hrest⟩ :=
    rankSortLimit_head (fun x => sortKeyOf_fst s q x) hcand hone hother
  refine ⟨rest, ?_⟩
  unfold searchRanked
  rw [if_neg ?_]
  · exact hrest
  · show ¬((primaryPass s q).isEmpty = true)
    unfold primaryPass
    rw [hrest]
    simp

theorem searchRanked_head_kana {s : Store} {q : String} {e : Nat}
    (hdet : detectQueryType q = .kana) (he : e ∈ s.entries)
    (hq : q ∈ readingVals s e)
    (huniq : ∀ x ∈ s.entries, q ∈ readingVals s x → x = e) :
    ∃ rest, searchRanked s q = mkRanked s 1 e :: rest := by
  have hcand : e ∈ primaryCands s q := by
    unfold primaryCands
    rw [hdet]
    exact mem_likeCandidates_of_exact he hq
  have hone : mtOf s q e = 1 := by
    unfold mtOf
    rw [hdet]
    exact matchTypeR_eq_one hq
  have hother : ∀ x ∈ primaryCands s q, x ≠ e → 2 ≤ mtOf s q x := by
    intro x hx hne
    unfold mtOf
    rw [hdet]
    unfold primaryCands at hx
    rw [hdet] at hx
    refine two_le_matchTypeR fun hmem => ?_
    exact hne (huniq x (mem_likeCandidates_entries hx) hmem)
  obtain ⟨rest, hrest⟩ :=
    rankSortLimit_head (fun x => sortKeyOf_fst s q x) hcand hone hother
  refine ⟨rest, ?_⟩
  unfold searchRanked
  rw [if_neg ?_]
  · exact hrest
  · show ¬((primaryPass s q).isEmpty = true)
    unfold primaryPass
    rw [hrest]
    simp

theorem searchRanked_head_english {s : Store} {q : String} {e : Nat}
    (hdet : detectQueryType q = .english) (he : e ∈ s.entries)
    (hq : q ∈ meaningVals s e)
    (huniq : ∀ x ∈ s.entries, q ∈ meaningVals s x → x = e) :
    ∃ rest, searchRanked s q = mkRanked s 1 e :: rest := by
  have hcand : e ∈ primaryCands s q := by
    unfold primaryCands
    rw [hdet]
    exact mem_likeCandidates_of_exact he hq
  have hone : mtOf s q e = 1 := by
    unfold mtOf
    rw [hdet]
    exact matchTypeM_eq_one hq
  have hother : ∀ x ∈ primaryCands s q, x ≠ e → 2 ≤ mtOf s q x := by
    intro x hx hne
    unfold mtOf
    rw [hdet]
    unfold primaryCands at hx
    rw [hdet] at hx
    refine two_le_matchTypeM fun hmem => ?_
    exact hne (huniq x (mem_likeCandidates_entries hx) hmem)
  obtain ⟨rest, hrest⟩ :=
    rankSortLimit_head (fun x => sortKeyOf_fst s q x) hcand hone hother
  refine ⟨rest, ?_⟩
  unfold searchRanked
  rw [if_neg ?_]
  · exact hrest
  · show ¬((primaryPass s q).isEmpty = true)
    unfold primaryPass
    rw [hrest]
    simp

/-! ### Claim C4: an exact hit is ranked 1 and returned first -/

/-- C4 (amended): if an entry is the unique entry owning a field value
exactly equal to the query — in the field of the classified category —
then it heads the result list with `match_type` 1.  (Uniqueness is
needed: with two exact owners only one of them can be first; see the
counterexample.) -/
theorem claim_C4_amended (s : Store) (q : String) (e : Nat)
    (he : e ∈ s.entries)
    (hcase :
      (detectQueryType q = .kanji ∧ q ∈ kanjiVals s e ∧
        ∀ x ∈ s.entries, q ∈ kanjiVals s x → x = e) ∨
      (detectQueryType q = .kana ∧ q ∈ readingVals s e ∧
        ∀ x ∈ s.entries, q ∈ readingVals s x → x = e) ∨
      (detectQueryType q = .english ∧ q ∈ meaningVals s e ∧
        ∀ x ∈ s.entries, q ∈ meaningVals s x → x = e)) :
    ∃ rest, searchRanked s q = mkRanked s 1 e :: rest := by
  rcases hcase with ⟨hdet, hq, huniq⟩ | ⟨hdet, hq, huniq⟩ | ⟨hdet, hq, huniq⟩
  · exact searchRanked_head_kanji hdet he hq huniq
  · exact searchRanked_head_kana hdet he hq huniq
  · exact searchRanked_head_english hdet he hq huniq

/-- C4 counterexample: in `storeC4` both entries own the exact kanji
食べる; entry 1 owns it yet is not first (the head is entry 2, whose
bytewise-least kanji あ is shorter), refuting the claim's unconditional
"the owning entry is first". -/
theorem claim_C4_counterexample :
    (1, "食べる") ∈ storeC4.kanjiRows ∧ (1 : Nat) ∈ storeC4.entries ∧
    detectQueryType "食べる" = QueryType.kanji ∧
    (searchRanked storeC4 "食べる").map RankedResult.id = [2, 1] ∧
    (searchRanked storeC4 "食べる").head?.map RankedResult.id ≠ some 1 := by
  decide

/-- C4 witness: in `storeA` the reading あい is the unique exact owner of
the query あい, so entry 1 heads the list with `match_type` 1. -/
theorem claim_C4_witness :
    ∃ rest, searchRanked storeA "あい" = mkRanked storeA 1 1 :: rest :=
  claim_C4_amended storeA "あい" 1 (by decide)
    (Or.inr (Or.inl ⟨by decide, by decide, by decide⟩))

/-! ### Claim C6: where rank 3 can appear -/

/-- C6 (amended): in the Kanji, Kana and English categories the primary
substring pass only returns entries of `match_type` 1 or 2 (the WHERE
clause guarantees a LIKE hit).  Rank 3 remains reachable in the Mixed
category and — contrary to the claim — in the single-category full-text
fallback passes, whose WHERE clause is the abstract index match and does
not guarantee containment (see the counterexample). -/
theorem claim_C6_amended (s : Store) (q : String)
    (hdet : detectQueryType q ≠ .all) :
    ∀ r ∈ primaryPass s q, r.match_type = 1 ∨ r.match_type = 2 := by
  intro r hr
  unfold primaryPass at hr
  obtain ⟨e, he, rfl⟩ := mem_rankSortLimit hr
  show mtOf s q e = 1 ∨ mtOf s q e = 2
  have hbound : 1 ≤ mtOf s q e ∧ mtOf s q e ≤ 2 := by
    cases hd : detectQueryType q with
    | all => exact absurd hd hdet
    | kanji =>
      unfold mtOf
      rw [hd]
      unfold primaryCands at he
      rw [hd] at he
      unfold likeCandidates at he
      rw [List.mem_filter] at he
      obtain ⟨-, hany⟩ := he
      rw [List.any_eq_true] at hany
      obtain ⟨p, hp, hcond⟩ := hany
      rw [Bool.and_eq_true, beq_iff_eq] at hcond
      have hv : p.2 ∈ kanjiVals s e := mem_valsOf.mpr ⟨p, hp, hcond.1, rfl⟩
      obtain ⟨b, hb⟩ := List.exists_mem_of_ne_nil _ (padded_ne_nil (readingVals s e))
      obtain ⟨c, hc⟩ := List.exists_mem_of_ne_nil _ (padded_ne_nil (meaningVals s e))
      refine ⟨one_le_matchTypeProj s q _ e,
        matchTypeProj_le_two s q _ e (some p.2, b, c)
          (mem_groupRows (mem_padded_some.mpr hv) hb hc) ?_⟩
      simpa [optLike] using hcond.2
    | kana =>
      unfold mtOf
      rw [hd]
      unfold primaryCands at he
      rw [hd] at he
      unfold likeCandidates at he
      rw [List.mem_filter] at he
      obtain ⟨-, hany⟩ := he
      rw [List.any_eq_true] at hany
      obtain ⟨p, hp, hcond⟩ := hany
      rw [Bool.and_eq_true, beq_iff_eq] at hcond
      have hv : p.2 ∈ readingVals s e := mem_valsOf.mpr ⟨p, hp, hcond.1, rfl⟩
      obtain ⟨a, ha⟩ := List.exists_mem_of_ne_nil _ (padded_ne_nil (kanjiVals s e))
      obtain ⟨c, hc⟩ := List.exists_mem_of_ne_nil _ (padded_ne_nil (meaningVals s e))
      refine ⟨one_le_matchTypeProj s q _ e,
        matchTypeProj_le_two s q _ e (a, some p.2, c)
          (mem_groupRows ha (mem_padded_some.mpr hv) hc) ?_⟩
      simpa [optLike] using hcond.2
    | english =>
      unfold mtOf
      rw [hd]
      unfold primaryCands at he
      rw [hd] at he
      unfold likeCandidates at he
      rw [List.mem_filter] at he
      obtain ⟨-, hany⟩ := he
      rw [List.any_eq_true] at hany
      obtain ⟨p, hp, hcond⟩ := hany
      rw [Bool.and_eq_true, beq_iff_eq] at hcond
      have hv : p.2 ∈ meaningVals s e := mem_valsOf.mpr ⟨p, hp, hcond.1, rfl⟩
      obtain ⟨a, ha⟩ := List.exists_mem_of_ne_nil _ (padded_ne_nil (kanjiVals s e))
      obtain ⟨b, hb⟩ := List.exists_mem_of_ne_nil _ (padded_ne_nil (readingVals s e))
      refine ⟨one_le_matchTypeProj s q _ e,
        matchTypeProj_le_two s q _ e (a, b, some p.2)
          (mem_groupRows ha hb (mem_padded_some.mpr hv)) ?_⟩
      simpa [optLike] using hcond.2
  omega

/-- C6 counterexample: in the Kanji category the full-text fallback of
`storeC6` returns an entry with `match_type` 3 — the index reports a hit
on 水 for the query 火, which 水 neither equals nor contains. -/
theorem claim_C6_counterexample :
    detectQueryType "火" = QueryType.kanji ∧
    (searchRanked storeC6 "火").map (fun r => (r.id, r.match_type)) = [(1, 3)] := by
  decide

/-- C6 witness: a concrete primary-pass row of the Kana category has rank
1 or 2. -/
theorem claim_C6_witness :
    (mkRanked storeA 2 1).match_type = 1 ∨ (mkRanked storeA 2 1).match_type = 2 :=
  claim_C6_amended storeA "あ" (by decide) (mkRanked storeA 2 1) (by decide)

/-! ### Claim C1: result-list ordering -/

/-- C1 (amended): every returned list is non-decreasing in `match_type`;
and the full sort key the code actually uses is
`(match_type, LENGTH(MIN(field)))` — the length of the *bytewise-minimum*
field value of the entry (for the Mixed category, the bare-column
tie-break `mixedKey2`) — not the length of the shortest *matching* value,
which the counterexample refutes. -/
theorem claim_C1_amended (s : Store) (q : String) :
    ((searchRanked s q).Pairwise fun a b => a.match_type ≤ b.match_type) ∧
    ((searchRanked s q).Pairwise fun a b =>
      keyLe (sortKeyOf s q a.id) (sortKeyOf s q b.id) = true) := by
  have h2 : (searchRanked s q).Pairwise fun a b =>
      keyLe (sortKeyOf s q a.id) (sortKeyOf s q b.id) = true := by
    unfold searchRanked primaryPass ftsPass
    split
    · exact rankSortLimit_pairwise _ _ _ _
    · exact rankSortLimit_pairwise _ _ _ _
  have hmt : ∀ r ∈ searchRanked s q, r.match_type = (sortKeyOf s q r.id).1 := by
    intro r hr
    obtain ⟨e, rfl⟩ := mem_searchRanked hr
    exact (sortKeyOf_fst s q e).symm
  refine ⟨?_, h2⟩
  exact h2.imp_of_mem fun {a b} ha hb hrel => by
    rw [hmt a ha, hmt b hb]
    exact keyLe_fst hrel

/-- C1 counterexample: in the English category, `storeC1`'s result list
for "eat" puts entry 2 (shortest matching meaning length 13, but
bytewise-minimum value "a" of length 1) before entry 1 (shortest matching
meaning length 5), so at equal rank the shortest-matching-value length
decreases. -/
theorem claim_C1_counterexample :
    detectQueryType "eat" = QueryType.english ∧
    ¬ claimOrderC1 "eat" (meaningVals storeC1) (searchRanked storeC1 "eat") := by
  decide

/-! ### Claim C5: what the primary pass selects -/

/-- C5 (amended): the primary pass's WHERE clause selects exactly the
entries having a field value containing the query up to ASCII case
folding — SQLite's `LIKE` is ASCII-case-insensitive, not case-sensitive
as claimed (for a wildcard-free query; `%`/`_` in the query would act as
wildcards).  The second conjunct pins this to the English category's
meanings field. -/
theorem claim_C5_amended (s : Store) (rows : List (Nat × String)) (q : String)
    (hq : noWildcard q) :
    (∀ e, e ∈ likeCandidates s rows q ↔
      e ∈ s.entries ∧ ∃ p ∈ rows, p.1 = e ∧ asciiSub q p.2) ∧
    (detectQueryType q = .english → primaryCands s q = likeCandidates s s.meaningRows q) := by
  constructor
  · intro e
    unfold likeCandidates
    rw [List.mem_filter]
    constructor
    · rintro ⟨he, hany⟩
      rw [List.any_eq_true] at hany
      obtain ⟨p, hp, hcond⟩ := hany
      rw [Bool.and_eq_true, beq_iff_eq] at hcond
      exact ⟨he, p, hp, hcond.1, (likeContains_iff hq).mp hcond.2⟩
    · rintro ⟨he, p, hp, hpe, hsub⟩
      refine ⟨he, List.any_eq_true.mpr ⟨p, hp, ?_⟩⟩
      rw [Bool.and_eq_true, beq_iff_eq]
      exact ⟨hpe, (likeContains_iff hq).mpr hsub⟩
  · intro hdet
    unfold primaryCands
    rw [hdet]

/-- C5 counterexample: for the English query "eat", `storeC5`'s only
entry is selected and returned although its sole meaning "EAT ME" does
not contain "eat" as a case-sensitive substring. -/
theorem claim_C5_counterexample :
    detectQueryType "eat" = QueryType.english ∧
    likeCandidates storeC5 storeC5.meaningRows "eat" = [1] ∧
    (search storeC5 "eat").map SearchResult.id = [1] ∧
    ∀ v ∈ meaningVals storeC5 1, ¬ csSub "eat" v := by
  decide

/-- C5 witness: the amended characterisation admits the case-folded hit. -/
theorem claim_C5_witness :
    (1 : Nat) ∈ likeCandidates storeC5 storeC5.meaningRows "eat" :=
  ((claim_C5_amended storeC5 storeC5.meaningRows "eat" (by decide)).1 1).mpr
    ⟨by decide, (1, "EAT ME"), by decide, rfl, by decide⟩

/-! ### Claim C7: kanji classification precedence -/

/-- C7 (amended): any query containing at least one character in
U+4E00..U+9FAF — the range the code's regex actually covers, a strict
subset of the CJK Unified Ideographs block — classifies as Kanji with
precedence over every other rule, whatever other characters co-occur. -/
theorem claim_C7_amended (q : String) (h : q.data.any isKanjiChar = true) :
    detectQueryType q = QueryType.kanji := by
  unfold detectQueryType
  rw [if_pos h]

/-- C7 counterexample: U+9FEB (鿫) lies in the CJK Unified Ideographs
block but beyond U+9FAF, so a query consisting of it classifies as Mixed,
not Kanji. -/
theorem claim_C7_counterexample :
    "鿫".data.any inCJKUnifiedBlock = true ∧
    "鿫".data.any isKanjiChar = false ∧
    detectQueryType "鿫" = QueryType.all := by
  decide

/-- C7 witness: the spec's own scenario 食べる123 (kanji plus digits)
classifies as Kanji. -/
theorem claim_C7_witness : detectQueryType "食べる123" = QueryType.kanji :=
  claim_C7_amended "食べる123" (by decide)

end Jmdict
